import Mathlib

/-!
Verification of the todoapp repository's persistence and request-handling
layer (crates/todoapp-model/src/lib.rs, crates/todoapp-model/src/db.rs,
src/main.rs), shallowly embedded in Lean.

Modelling conventions:
* Byte sequences (Rust `Vec<u8>`, `&[u8]`, sled keys and values, the UTF-8
  bytes of a `String`) are `List Nat`, each element a byte value.
* A `Uuid` is its 16 raw bytes (`Uuid::as_bytes`), so a `List Nat`.
* A `DateTime<Utc>` instant is the number of nanoseconds since the epoch,
  a `Nat`.  chrono serializes a `DateTime<Utc>` through serde as an
  injective textual image of the instant at full stored precision; we
  model the serialized form as the bincode varint of the nanosecond
  count, which preserves the properties that matter here: the encoding
  is injective and round-trips the instant exactly, at full precision.
* `bincode::config::standard()` uses variable-length integer encoding:
  a value below 251 is a single byte, otherwise a marker byte 251/252/253
  followed by the little-endian u16/u32/u64.  Strings and byte slices are
  a varint length followed by the raw bytes; `Option` is a 0/1 tag byte
  followed by the payload; `bool` is a 0/1 byte; a fieldless enum variant
  is its variant index as a varint.
* `Utc::now()` and `Uuid::new_v4()` are effects; each embedded operation
  that calls them takes the produced value as an explicit argument.
* The sled database is a `Sled` state: `tree`, the in-memory B-tree
  contents as an association list sorted by key in lexicographic byte
  order (sled's key order), and `durable`, the contents last committed to
  disk.  A write mutates `tree`; `Db::flush` copies `tree` to `durable`.
* Rust `Result` becomes `Option` (`none` = `Err`); the operations of this
  repository that can only fail on I/O, which the pure model has none of,
  are total.
-/

/-- `Priority` from crates/todoapp-model/src/lib.rs. -/
inductive Priority where
  | low
  | medium
  | high
deriving DecidableEq, Repr

/-- `Todo` from crates/todoapp-model/src/lib.rs.  `id` is the 16 uuid
bytes, strings are their UTF-8 bytes, timestamps are nanoseconds since
the epoch (see the module conventions above). -/
structure Todo where
  id : List Nat
  title : List Nat
  description : Option (List Nat)
  due_date : Option Nat
  priority : Priority
  completed : Bool
  created_at : Nat
  updated_at : Nat
deriving DecidableEq, Repr

/-- A `Todo` as Rust's types always produce it: every byte sequence is
made of bytes, lengths fit in `usize` (u64), timestamps fit the encoder's
u64 range, and the uuid is 16 bytes wide. -/
def Todo.Valid (t : Todo) : Prop :=
  t.id.length = 16 ∧
  (∀ b ∈ t.id, b < 256) ∧
  t.title.length < 2 ^ 64 ∧
  (∀ b ∈ t.title, b < 256) ∧
  (∀ d ∈ t.description, d.length < 2 ^ 64 ∧ ∀ b ∈ d, b < 256) ∧
  (∀ n ∈ t.due_date, n < 2 ^ 64) ∧
  t.created_at < 2 ^ 64 ∧
  t.updated_at < 2 ^ 64

instance (t : Todo) : Decidable t.Valid := by
  unfold Todo.Valid
  infer_instance

/-! ## The bincode standard-configuration encoding -/

/-- bincode standard-configuration variable-length encoding of an
unsigned integer: below 251 a single byte, otherwise a marker byte and
the little-endian u16 (251), u32 (252) or u64 (253). -/
def writeVarint (n : Nat) : List Nat :=
  if n < 251 then [n]
  else if n < 2 ^ 16 then [251, n % 256, n / 2 ^ 8 % 256]
  else if n < 2 ^ 32 then
    [252, n % 256, n / 2 ^ 8 % 256, n / 2 ^ 16 % 256, n / 2 ^ 24 % 256]
  else
    [253, n % 256, n / 2 ^ 8 % 256, n / 2 ^ 16 % 256, n / 2 ^ 24 % 256,
      n / 2 ^ 32 % 256, n / 2 ^ 40 % 256, n / 2 ^ 48 % 256, n / 2 ^ 56 % 256]

/-- Decoder for `writeVarint`: returns the value and the remaining
input, or `none` on truncated input or an unsupported marker. -/
def readVarint : List Nat → Option (Nat × List Nat)
  | [] => none
  | b :: rest =>
    if b < 251 then some (b, rest)
    else if b = 251 then
      match rest with
      | b0 :: b1 :: r => some (b0 + b1 * 2 ^ 8, r)
      | _ => none
    else if b = 252 then
      match rest with
      | b0 :: b1 :: b2 :: b3 :: r =>
        some (b0 + b1 * 2 ^ 8 + b2 * 2 ^ 16 + b3 * 2 ^ 24, r)
      | _ => none
    else if b = 253 then
      match rest with
      | b0 :: b1 :: b2 :: b3 :: b4 :: b5 :: b6 :: b7 :: r =>
        some (b0 + b1 * 2 ^ 8 + b2 * 2 ^ 16 + b3 * 2 ^ 24 + b4 * 2 ^ 32 +
          b5 * 2 ^ 40 + b6 * 2 ^ 48 + b7 * 2 ^ 56, r)
      | _ => none
    else none

theorem readVarint_writeVarint (n : Nat) (rest : List Nat) (h : n < 2 ^ 64) :
    readVarint (writeVarint n ++ rest) = some (n, rest) := by
  unfold writeVarint
  by_cases h251 : n < 251
  · simp [readVarint, h251]
  · by_cases h16 : n < 2 ^ 16
    · simp only [if_neg h251, if_pos h16, List.cons_append, readVarint]
      norm_num
      omega
    · by_cases h32 : n < 2 ^ 32
      · simp only [if_neg h251, if_neg h16, if_pos h32, List.cons_append, readVarint]
        norm_num
        omega
      · simp only [if_neg h251, if_neg h16, if_neg h32, List.cons_append, readVarint]
        norm_num
        omega

/-- Length-prefixed byte sequence, as bincode writes serde strings and
byte slices (the uuid serializes through `serialize_bytes`). -/
def writeBytes (bs : List Nat) : List Nat :=
  writeVarint bs.length ++ bs

/-- Decoder for `writeBytes`. -/
def readBytes (l : List Nat) : Option (List Nat × List Nat) :=
  match readVarint l with
  | none => none
  | some (len, rest) =>
    if len ≤ rest.length then some (rest.take len, rest.drop len) else none

theorem readBytes_writeBytes (bs rest : List Nat) (h : bs.length < 2 ^ 64) :
    readBytes (writeBytes bs ++ rest) = some (bs, rest) := by
  simp [writeBytes, readBytes, readVarint_writeVarint bs.length (bs ++ rest) h,
    List.take_append, List.drop_append]

/-- bincode tag-byte encoding of `Option`. -/
def writeOpt (enc : α → List Nat) : Option α → List Nat
  | none => [0]
  | some x => 1 :: enc x

/-- Decoder for `writeOpt`. -/
def readOpt (dec : List Nat → Option (α × List Nat)) :
    List Nat → Option (Option α × List Nat)
  | [] => none
  | 0 :: rest => some (none, rest)
  | 1 :: rest =>
    match dec rest with
    | some (x, r) => some (some x, r)
    | none => none
  | _ => none

theorem readOpt_writeOpt (enc : α → List Nat)
    (dec : List Nat → Option (α × List Nat)) (o : Option α) (rest : List Nat)
    (h : ∀ x r, o = some x → dec (enc x ++ r) = some (x, r)) :
    readOpt dec (writeOpt enc o ++ rest) = some (o, rest) := by
  cases o with
  | none => simp [writeOpt, readOpt]
  | some x => simp [writeOpt, readOpt, h x rest rfl]

/-- bincode 0/1 byte encoding of `bool`. -/
def writeBool : Bool → List Nat
  | false => [0]
  | true => [1]

/-- Decoder for `writeBool`. -/
def readBool : List Nat → Option (Bool × List Nat)
  | 0 :: rest => some (false, rest)
  | 1 :: rest => some (true, rest)
  | _ => none

theorem readBool_writeBool (b : Bool) (rest : List Nat) :
    readBool (writeBool b ++ rest) = some (b, rest) := by
  cases b <;> simp [writeBool, readBool]

/-- bincode encoding of a fieldless enum variant: the variant index as a
varint. -/
def writePriority : Priority → List Nat
  | .low => writeVarint 0
  | .medium => writeVarint 1
  | .high => writeVarint 2

/-- Decoder for `writePriority`. -/
def readPriority (l : List Nat) : Option (Priority × List Nat) :=
  match readVarint l with
  | some (0, rest) => some (.low, rest)
  | some (1, rest) => some (.medium, rest)
  | some (2, rest) => some (.high, rest)
  | _ => none

theorem readPriority_writePriority (p : Priority) (rest : List Nat) :
    readPriority (writePriority p ++ rest) = some (p, rest) := by
  cases p with
  | low => simp [writePriority, readPriority, readVarint_writeVarint 0 rest (by norm_num)]
  | medium => simp [writePriority, readPriority, readVarint_writeVarint 1 rest (by norm_num)]
  | high => simp [writePriority, readPriority, readVarint_writeVarint 2 rest (by norm_num)]

/-- `bincode::serde::encode_to_vec(todo, bincode::config::standard())`
from crates/todoapp-model/src/db.rs: the serde-derived field-by-field
encoding of `Todo`, fields in declaration order with no separators. -/
def encode_to_vec (t : Todo) : List Nat :=
  writeBytes t.id ++ writeBytes t.title ++ writeOpt writeBytes t.description ++
    writeOpt writeVarint t.due_date ++ writePriority t.priority ++
    writeBool t.completed ++ writeVarint t.created_at ++ writeVarint t.updated_at

/-- `bincode::serde::decode_from_slice` for `Todo`: reads the fields in
declaration order and returns the record together with the unconsumed
remainder of the input (the Rust call returns the number of bytes read;
trailing bytes are not an error). -/
def decode_from_slice (l : List Nat) : Option (Todo × List Nat) :=
  (readBytes l).bind fun p1 =>
  (readBytes p1.2).bind fun p2 =>
  (readOpt readBytes p2.2).bind fun p3 =>
  (readOpt readVarint p3.2).bind fun p4 =>
  (readPriority p4.2).bind fun p5 =>
  (readBool p5.2).bind fun p6 =>
  (readVarint p6.2).bind fun p7 =>
  (readVarint p7.2).bind fun p8 =>
  some (⟨p1.1, p2.1, p3.1, p4.1, p5.1, p6.1, p7.1, p8.1⟩, p8.2)

theorem decode_encode (t : Todo) (rest : List Nat) (h : t.Valid) :
    decode_from_slice (encode_to_vec t ++ rest) = some (t, rest) := by
  obtain ⟨hid, -, htitle, -, hdesc, hdue, hca, hua⟩ := h
  unfold encode_to_vec decode_from_slice
  rw [List.append_assoc, List.append_assoc, List.append_assoc,
    List.append_assoc, List.append_assoc, List.append_assoc,
    List.append_assoc]
  rw [readBytes_writeBytes _ _ (by omega)]
  simp only [Option.some_bind]
  rw [readBytes_writeBytes _ _ htitle]
  simp only [Option.some_bind]
  rw [readOpt_writeOpt _ _ _ _
    (fun x r hx => readBytes_writeBytes x r (hdesc x (Option.mem_def.mpr hx)).1)]
  simp only [Option.some_bind]
  rw [readOpt_writeOpt _ _ _ _
    (fun x r hx => readVarint_writeVarint x r (hdue x (Option.mem_def.mpr hx)))]
  simp only [Option.some_bind]
  rw [readPriority_writePriority]
  simp only [Option.some_bind]
  rw [readBool_writeBool]
  simp only [Option.some_bind]
  rw [readVarint_writeVarint _ _ hca]
  simp only [Option.some_bind]
  rw [readVarint_writeVarint _ _ hua]
  simp only [Option.some_bind]

/-! ## The sled key-value store -/

/-- Keys and values of the store are byte sequences. -/
abbrev Bytes := List Nat

/-- Lexicographic byte order on keys, sled's iteration order. -/
def keyLt : Bytes → Bytes → Bool
  | [], [] => false
  | [], _ :: _ => true
  | _ :: _, [] => false
  | a :: as, b :: bs => if a < b then true else if b < a then false else keyLt as bs

/-- The B-tree contents: an association list kept sorted by key, one
entry per key. -/
abbrev SledTree := List (Bytes × Bytes)

/-- `sled::Tree::insert`: store `v` under `k`, replacing any existing
value for `k`, keeping the entries in key order. -/
def treeInsert (k : Bytes) (v : Bytes) : SledTree → SledTree
  | [] => [(k, v)]
  | (k', v') :: rest =>
    if k = k' then (k, v) :: rest
    else if keyLt k k' then (k, v) :: (k', v') :: rest
    else (k', v') :: treeInsert k v rest

/-- `sled::Tree::get`: the value stored under `k`, if any. -/
def treeGet (k : Bytes) : SledTree → Option Bytes
  | [] => none
  | (k', v') :: rest => if k = k' then some v' else treeGet k rest

/-- `sled::Tree::remove`: drop the entry for `k`, if any. -/
def treeRemove (k : Bytes) (t : SledTree) : SledTree :=
  t.filter fun e => decide (e.1 ≠ k)

/-- The sled database state: `tree` is what reads observe, `durable` is
what has been committed to disk; `Db::flush` copies `tree` to
`durable`. -/
structure Sled where
  tree : SledTree
  durable : SledTree
deriving DecidableEq, Repr

/-- `sled::Db::flush`: commit the in-memory contents to disk. -/
def Sled.flush (s : Sled) : Sled :=
  { s with durable := s.tree }

/-- The freshly opened empty database. -/
def Sled.empty : Sled :=
  { tree := [], durable := [] }

namespace TodoDb

/-- `TodoDb::insert` from crates/todoapp-model/src/db.rs: serialize the
todo, write it under its id's bytes, then flush. -/
def insert (s : Sled) (todo : Todo) : Sled :=
  let key := todo.id
  let value := encode_to_vec todo
  ({ s with tree := treeInsert key value s.tree }).flush

/-- `TodoDb::get` from crates/todoapp-model/src/db.rs: look the id's
bytes up in the tree; absent is `Ok(None)` (here `some none`), present
bytes are deserialized, a deserialization failure is an error (here
`none`). -/
def get (s : Sled) (id : Bytes) : Option (Option Todo) :=
  match treeGet id s.tree with
  | some bytes =>
    match decode_from_slice bytes with
    | some (todo, _) => some (some todo)
    | none => none
  | none => some none

/-- Stable insertion of a todo into a list sorted by `created_at`
descending: the todo goes before the first strictly older entry, after
entries with the same timestamp, exactly where Rust's stable
`sort_by(|a, b| b.created_at.cmp(&a.created_at))` keeps it. -/
def insertByCreatedDesc (t : Todo) : List Todo → List Todo
  | [] => [t]
  | u :: rest =>
    if u.created_at < t.created_at then t :: u :: rest
    else u :: insertByCreatedDesc t rest

/-- The sort performed by `TodoDb::get_all`:
`todos.sort_by(|a, b| b.created_at.cmp(&a.created_at))`. -/
def sortByCreatedDesc (l : List Todo) : List Todo :=
  l.foldr insertByCreatedDesc []

/-- Deserialize every stored value in iteration order, failing the whole
call if any single one fails. -/
def decodeAll : List Bytes → Option (List Todo)
  | [] => some []
  | v :: rest =>
    match decode_from_slice v with
    | none => none
    | some (todo, _) =>
      match decodeAll rest with
      | none => none
      | some todos => some (todo :: todos)

/-- `TodoDb::get_all` from crates/todoapp-model/src/db.rs: deserialize
every record in iteration order, then sort by `created_at` descending
(newest first). -/
def get_all (s : Sled) : Option (List Todo) :=
  match decodeAll (s.tree.map Prod.snd) with
  | none => none
  | some todos => some (sortByCreatedDesc todos)

/-- `TodoDb::update` from crates/todoapp-model/src/db.rs: serialize the
todo, write it under its id's bytes, then flush — the same body as
`insert`. -/
def update (s : Sled) (todo : Todo) : Sled :=
  let key := todo.id
  let value := encode_to_vec todo
  ({ s with tree := treeInsert key value s.tree }).flush

/-- `TodoDb::delete` from crates/todoapp-model/src/db.rs: remove the
id's entry, flush, and report whether an entry existed. -/
def delete (s : Sled) (id : Bytes) : Bool × Sled :=
  let existed := (treeGet id s.tree).isSome
  (existed, ({ s with tree := treeRemove id s.tree }).flush)

/-- `TodoDb::clear_all` from crates/todoapp-model/src/db.rs: clear the
tree, then flush. -/
def clear_all (s : Sled) : Sled :=
  ({ s with tree := [] }).flush

end TodoDb

theorem treeGet_treeInsert_self (k v : Bytes) (t : SledTree) :
    treeGet k (treeInsert k v t) = some v := by
  induction t with
  | nil => simp [treeInsert, treeGet]
  | cons e rest ih =>
    obtain ⟨k', v'⟩ := e
    by_cases hk : k = k'
    · simp [treeInsert, hk, treeGet]
    · by_cases hlt : keyLt k k'
      · simp [treeInsert, hk, hlt, treeGet]
      · simp [treeInsert, hk, hlt, treeGet, ih]

theorem treeGet_treeRemove_self (k : Bytes) (t : SledTree) :
    treeGet k (treeRemove k t) = none := by
  induction t with
  | nil => rfl
  | cons e rest ih =>
    obtain ⟨k', v'⟩ := e
    by_cases hk : k' = k
    · simpa [treeRemove, hk] using ih
    · simpa [treeRemove, hk, treeGet, Ne.symm hk] using ih

theorem treeGet_mem (k v : Bytes) (t : SledTree) (h : treeGet k t = some v) :
    (k, v) ∈ t := by
  induction t with
  | nil => cases h
  | cons e rest ih =>
    obtain ⟨k', v'⟩ := e
    by_cases hk : k = k'
    · simp [treeGet, hk] at h
      simp [hk, h]
    · simp only [treeGet, if_neg hk] at h
      exact List.mem_cons_of_mem _ (ih h)

theorem mem_treeInsert (k v : Bytes) (t : SledTree) (e : Bytes × Bytes)
    (h : e ∈ treeInsert k v t) : e = (k, v) ∨ e ∈ t := by
  induction t with
  | nil => simpa [treeInsert] using h
  | cons e' rest ih =>
    obtain ⟨k', v'⟩ := e'
    by_cases hk : k = k'
    · simp only [treeInsert, if_pos hk] at h
      rcases List.mem_cons.mp h with rfl | h
      · exact Or.inl rfl
      · exact Or.inr (List.mem_cons_of_mem _ h)
    · by_cases hlt : keyLt k k'
      · simp only [treeInsert, if_neg hk, if_pos hlt] at h
        rcases List.mem_cons.mp h with rfl | h
        · exact Or.inl rfl
        · exact Or.inr h
      · simp only [treeInsert, if_neg hk, if_neg hlt] at h
        rcases List.mem_cons.mp h with rfl | h
        · exact Or.inr (List.mem_cons_self _ _)
        · rcases ih h with h' | h'
          · exact Or.inl h'
          · exact Or.inr (List.mem_cons_of_mem _ h')

/-- Descending created-at order, the relation `get_all`'s result list is
sorted by. -/
def createdGE (a b : Todo) : Prop :=
  b.created_at ≤ a.created_at

theorem insertByCreatedDesc_perm (t : Todo) (l : List Todo) :
    List.Perm (TodoDb.insertByCreatedDesc t l) (t :: l) := by
  induction l with
  | nil => simp [TodoDb.insertByCreatedDesc]
  | cons u rest ih =>
    unfold TodoDb.insertByCreatedDesc
    by_cases h : u.created_at < t.created_at
    · simp [h]
    · simp only [if_neg h]
      exact (ih.cons u).trans (List.Perm.swap t u rest)

theorem insertByCreatedDesc_sorted (t : Todo) (l : List Todo)
    (h : l.Sorted createdGE) :
    (TodoDb.insertByCreatedDesc t l).Sorted createdGE := by
  induction l with
  | nil => simp [TodoDb.insertByCreatedDesc]
  | cons u rest ih =>
    rw [List.sorted_cons] at h
    obtain ⟨hu, hrest⟩ := h
    unfold TodoDb.insertByCreatedDesc
    by_cases hcmp : u.created_at < t.created_at
    · rw [if_pos hcmp, List.sorted_cons]
      refine ⟨?_, List.sorted_cons.mpr ⟨hu, hrest⟩⟩
      intro b hb
      rcases List.mem_cons.mp hb with rfl | hb
      · exact le_of_lt hcmp
      · exact le_trans (hu b hb) (le_of_lt hcmp)
    · rw [if_neg hcmp, List.sorted_cons]
      refine ⟨?_, ih hrest⟩
      intro b hb
      rcases List.mem_cons.mp ((insertByCreatedDesc_perm t rest).mem_iff.mp hb) with rfl | hb
      · exact Nat.le_of_not_lt hcmp
      · exact hu b hb

theorem sortByCreatedDesc_sorted (l : List Todo) :
    (TodoDb.sortByCreatedDesc l).Sorted createdGE := by
  unfold TodoDb.sortByCreatedDesc
  induction l with
  | nil => simp
  | cons t rest ih => exact insertByCreatedDesc_sorted t _ ih

theorem sortByCreatedDesc_perm (l : List Todo) :
    List.Perm (TodoDb.sortByCreatedDesc l) l := by
  unfold TodoDb.sortByCreatedDesc
  induction l with
  | nil => rfl
  | cons t rest ih => exact (insertByCreatedDesc_perm t _).trans (ih.cons t)

/-! ## The domain model's mutation operations -/

/-- `Todo::new` from crates/todoapp-model/src/lib.rs.  The generated
uuid (`Uuid::new_v4()`) and the clock reading (`Utc::now()`) are passed
as the `id` and `now` arguments. -/
def Todo.new (title : List Nat) (description : Option (List Nat))
    (due_date : Option Nat) (priority : Priority) (id : Bytes) (now : Nat) :
    Todo :=
  { id := id
    title := title
    description := description
    due_date := due_date
    priority := priority
    completed := false
    created_at := now
    updated_at := now }

/-- `Todo::mark_completed` from crates/todoapp-model/src/lib.rs; `now`
is the `Utc::now()` reading. -/
def Todo.mark_completed (t : Todo) (now : Nat) : Todo :=
  { t with completed := true, updated_at := now }

/-- `Todo::mark_incomplete` from crates/todoapp-model/src/lib.rs; `now`
is the `Utc::now()` reading. -/
def Todo.mark_incomplete (t : Todo) (now : Nat) : Todo :=
  { t with completed := false, updated_at := now }

/-- `Todo::update` from crates/todoapp-model/src/lib.rs: each `some`
argument replaces its field (for the nullable fields the payload is
itself an `Option`, so `some none` clears the field), each `none`
argument leaves its field alone, and `updated_at` is set to `now` at the
end unconditionally. -/
def Todo.update (t : Todo) (title : Option (List Nat))
    (description : Option (Option (List Nat))) (due_date : Option (Option Nat))
    (priority : Option Priority) (now : Nat) : Todo :=
  let t := match title with
    | some x => { t with title := x }
    | none => t
  let t := match description with
    | some d => { t with description := d }
    | none => t
  let t := match due_date with
    | some dd => { t with due_date := dd }
    | none => t
  let t := match priority with
    | some p => { t with priority := p }
    | none => t
  { t with updated_at := now }

/-- One call to a domain mutation operation, with the `Utc::now()`
reading it observes. -/
inductive TodoOp where
  | update (title : Option (List Nat)) (description : Option (Option (List Nat)))
      (due_date : Option (Option Nat)) (priority : Option Priority) (now : Nat)
  | mark_completed (now : Nat)
  | mark_incomplete (now : Nat)

/-- The clock reading an operation observes. -/
def TodoOp.time : TodoOp → Nat
  | .update _ _ _ _ now => now
  | .mark_completed now => now
  | .mark_incomplete now => now

/-- Apply one mutation operation to a todo. -/
def TodoOp.apply (t : Todo) : TodoOp → Todo
  | .update title description due_date priority now =>
    t.update title description due_date priority now
  | .mark_completed now => t.mark_completed now
  | .mark_incomplete now => t.mark_incomplete now

/-- Apply a sequence of mutation operations in order. -/
def applyOps (t : Todo) (ops : List TodoOp) : Todo :=
  ops.foldl TodoOp.apply t

theorem TodoOp.apply_created_at (t : Todo) (op : TodoOp) :
    (op.apply t).created_at = t.created_at := by
  cases op with
  | update title description due_date priority now =>
    unfold TodoOp.apply Todo.update
    cases title <;> cases description <;> cases due_date <;> cases priority <;> rfl
  | mark_completed now => rfl
  | mark_incomplete now => rfl

theorem TodoOp.apply_updated_at (t : Todo) (op : TodoOp) :
    (op.apply t).updated_at = op.time := by
  cases op with
  | update title description due_date priority now =>
    unfold TodoOp.apply Todo.update TodoOp.time
    cases title <;> cases description <;> cases due_date <;> cases priority <;> rfl
  | mark_completed now => rfl
  | mark_incomplete now => rfl

theorem applyOps_created_at (t : Todo) (ops : List TodoOp) :
    (applyOps t ops).created_at = t.created_at := by
  induction ops generalizing t with
  | nil => rfl
  | cons op rest ih =>
    unfold applyOps at ih ⊢
    rw [List.foldl_cons, ih, TodoOp.apply_created_at]

/-! ## The HTTP error and delete-handler model (src/main.rs) -/

/-- `ErrorResponse` from crates/todoapp-transfer/src/lib.rs: a single
message string, as its UTF-8 bytes. -/
structure ErrorResponse where
  error : Bytes
deriving DecidableEq, Repr

/-- `ErrorResponse::new`. -/
def ErrorResponse.new (error : Bytes) : ErrorResponse :=
  { error := error }

/-- `AppError` from src/main.rs; the carried values are the error
message's UTF-8 bytes. -/
inductive AppError where
  | databaseError (err : Bytes)
  | notFound (msg : Bytes)
deriving DecidableEq, Repr

/-- Hexadecimal digit character code of a value below 16. -/
def hexDigit (n : Nat) : Nat :=
  if n < 10 then 48 + n else 87 + n

/-- One byte as its two lowercase hex digit character codes. -/
def byteHex (b : Nat) : Bytes :=
  [hexDigit (b / 16), hexDigit (b % 16)]

/-- The textual canonical (hyphenated 8-4-4-4-12) form of a uuid's 16
bytes, as `Display` for `Uuid` renders it. -/
def uuidHyphenated (id : Bytes) : Bytes :=
  let hx := (id.map byteHex).flatten
  hx.take 8 ++ [45] ++ (hx.drop 8).take 4 ++ [45] ++ (hx.drop 12).take 4 ++
    [45] ++ (hx.drop 16).take 4 ++ [45] ++ hx.drop 20

/-- The handlers' not-found message,
`format!("Todo with id {} not found", id)`, as UTF-8 bytes. -/
def notFoundMsg (id : Bytes) : Bytes :=
  [84, 111, 100, 111, 32, 119, 105, 116, 104, 32, 105, 100, 32] ++
    uuidHyphenated id ++ [32, 110, 111, 116, 32, 102, 111, 117, 110, 100]

/-- `AppError::into_response` from src/main.rs: a database error maps to
500, a not-found error to 404, each with an `ErrorResponse` JSON body
carrying the message. -/
def AppError.into_response : AppError → Nat × ErrorResponse
  | .databaseError err => (500, ErrorResponse.new err)
  | .notFound msg => (404, ErrorResponse.new msg)

/-- The `delete_todo` handler from src/main.rs: run the store delete;
204 on "existed", `AppError::NotFound` with the descriptive message
otherwise.  The returned state is the store after the call. -/
def delete_todo (s : Sled) (id : Bytes) : Except AppError Nat × Sled :=
  let r := TodoDb.delete s id
  if r.1 then (Except.ok 204, r.2)
  else (Except.error (AppError.notFound (notFoundMsg id)), r.2)

/-- axum's rendering of the handler result: `Ok(StatusCode)` becomes
that status with an empty body, `Err(AppError)` renders through
`AppError::into_response`. -/
def renderDelete : Except AppError Nat → Nat × Option ErrorResponse
  | .ok status => (status, none)
  | .error e => (e.into_response.1, some e.into_response.2)

/-! ## Reachable store states and key-record coherence -/

/-- Store states reachable from a freshly opened empty database through
the mutating operations, inserting only todos that Rust's types can
produce. -/
inductive Reachable : Sled → Prop where
  | empty : Reachable Sled.empty
  | insert (s : Sled) (t : Todo) : Reachable s → t.Valid →
      Reachable (TodoDb.insert s t)
  | update (s : Sled) (t : Todo) : Reachable s → t.Valid →
      Reachable (TodoDb.update s t)
  | delete (s : Sled) (id : Bytes) : Reachable s →
      Reachable (TodoDb.delete s id).2
  | clear_all (s : Sled) : Reachable s → Reachable (TodoDb.clear_all s)

/-- Every stored entry is the encoding of a valid todo whose `id` field
is the entry's key. -/
def TreeInv (tr : SledTree) : Prop :=
  ∀ e ∈ tr, ∃ t : Todo, t.Valid ∧ e.2 = encode_to_vec t ∧ t.id = e.1

theorem treeInv_treeInsert (tr : SledTree) (t : Todo) (ht : t.Valid)
    (h : TreeInv tr) : TreeInv (treeInsert t.id (encode_to_vec t) tr) := by
  intro e he
  rcases mem_treeInsert _ _ _ _ he with rfl | he
  · exact ⟨t, ht, rfl, rfl⟩
  · exact h e he

theorem treeInv_treeRemove (tr : SledTree) (k : Bytes) (h : TreeInv tr) :
    TreeInv (treeRemove k tr) := by
  intro e he
  exact h e (List.mem_of_mem_filter he)

theorem reachable_treeInv (s : Sled) (h : Reachable s) : TreeInv s.tree := by
  induction h with
  | empty => intro e he; cases he
  | insert s t _ ht ih => exact treeInv_treeInsert s.tree t ht ih
  | update s t _ ht ih => exact treeInv_treeInsert s.tree t ht ih
  | delete s id _ ih => exact treeInv_treeRemove s.tree id ih
  | clear_all s _ _ => intro e he; cases he

/-! ## Claims -/

/-- C1: for every valid `Todo` value `t`, inserting `t` into the store
and then calling `get` with `t`'s identifier returns `Some(t)`, equal in
every field — optional fields and timestamps round-tripped exactly
through the binary encoding. -/
theorem C1_insert_get_roundtrip (s : Sled) (t : Todo) (h : t.Valid) :
    TodoDb.get (TodoDb.insert s t) t.id = some (some t) := by
  have hd := decode_encode t [] h
  rw [List.append_nil] at hd
  unfold TodoDb.insert TodoDb.get
  simp only [Sled.flush, treeGet_treeInsert_self, hd]

/-- Witness for C1: a concrete valid todo (optional fields populated, a
due date needing the two-byte varint) round-trips through a concrete
store. -/
theorem C1_witness :
    (⟨List.replicate 16 0, [72, 105], some [65], some 300, .medium, false,
      10, 12⟩ : Todo).Valid ∧
    TodoDb.get
      (TodoDb.insert Sled.empty
        ⟨List.replicate 16 0, [72, 105], some [65], some 300, .medium, false,
          10, 12⟩)
      (List.replicate 16 0) =
      some (some ⟨List.replicate 16 0, [72, 105], some [65], some 300,
        .medium, false, 10, 12⟩) :=
  ⟨by decide, C1_insert_get_roundtrip Sled.empty _ (by decide)⟩

/-- C2: whenever `get_all` succeeds it returns exactly the store's
decoded records (a permutation of them), sorted by `created_at`
descending — the explicit sort's order, whatever the iteration order
was. -/
theorem C2_get_all_sorted (s : Sled) (todos : List Todo)
    (h : TodoDb.get_all s = some todos) :
    todos.Sorted createdGE ∧
    ∃ raw, TodoDb.decodeAll (s.tree.map Prod.snd) = some raw ∧
      List.Perm todos raw := by
  unfold TodoDb.get_all at h
  cases hd : TodoDb.decodeAll (s.tree.map Prod.snd) with
  | none => rw [hd] at h; cases h
  | some raw =>
    rw [hd] at h
    have he : todos = TodoDb.sortByCreatedDesc raw := by
      injection h with h
      exact h.symm
    subst he
    exact ⟨sortByCreatedDesc_sorted raw, raw, rfl, sortByCreatedDesc_perm raw⟩

/-- Witness for C2: three todos with created-at 1 < 2 < 3, inserted in
the order 1, 3, 2 under keys whose sled iteration order is 1, 2, 3;
`get_all` returns them newest first, [t3, t2, t1], matching neither
insertion nor iteration order. -/
theorem C2_witness :
    TodoDb.get_all
      (TodoDb.insert
        (TodoDb.insert
          (TodoDb.insert Sled.empty
            ⟨List.replicate 16 0, [65], none, none, .low, false, 1, 1⟩)
          ⟨List.replicate 15 0 ++ [2], [67], none, none, .high, false, 3, 3⟩)
        ⟨List.replicate 15 0 ++ [1], [66], none, none, .medium, false, 2, 2⟩) =
      some [⟨List.replicate 15 0 ++ [2], [67], none, none, .high, false, 3, 3⟩,
        ⟨List.replicate 15 0 ++ [1], [66], none, none, .medium, false, 2, 2⟩,
        ⟨List.replicate 16 0, [65], none, none, .low, false, 1, 1⟩] ∧
    List.Sorted createdGE
      [⟨List.replicate 15 0 ++ [2], [67], none, none, .high, false, 3, 3⟩,
        ⟨List.replicate 15 0 ++ [1], [66], none, none, .medium, false, 2, 2⟩,
        ⟨List.replicate 16 0, [65], none, none, .low, false, 1, 1⟩] :=
  ⟨by decide,
    (C2_get_all_sorted
      (TodoDb.insert
        (TodoDb.insert
          (TodoDb.insert Sled.empty
            ⟨List.replicate 16 0, [65], none, none, .low, false, 1, 1⟩)
          ⟨List.replicate 15 0 ++ [2], [67], none, none, .high, false, 3, 3⟩)
        ⟨List.replicate 15 0 ++ [1], [66], none, none, .medium, false, 2, 2⟩)
      [⟨List.replicate 15 0 ++ [2], [67], none, none, .high, false, 3, 3⟩,
        ⟨List.replicate 15 0 ++ [1], [66], none, none, .medium, false, 2, 2⟩,
        ⟨List.replicate 16 0, [65], none, none, .low, false, 1, 1⟩]
      (by decide)).1⟩

/-- C3: `Todo::update` replaces exactly the fields passed as `some`
(nested `some none` clears a nullable field), leaves `none` fields and
the id/completed/created-at untouched, and unconditionally sets
`updated_at` to the call's clock reading — also when every field
argument is `none`. -/
theorem C3_update_semantics (t : Todo) (title : Option (List Nat))
    (description : Option (Option (List Nat))) (due_date : Option (Option Nat))
    (priority : Option Priority) (now : Nat) :
    (t.update title description due_date priority now).title =
      title.getD t.title ∧
    (t.update title description due_date priority now).description =
      description.getD t.description ∧
    (t.update title description due_date priority now).due_date =
      due_date.getD t.due_date ∧
    (t.update title description due_date priority now).priority =
      priority.getD t.priority ∧
    (t.update title description due_date priority now).updated_at = now ∧
    (t.update title description due_date priority now).id = t.id ∧
    (t.update title description due_date priority now).completed =
      t.completed ∧
    (t.update title description due_date priority now).created_at =
      t.created_at := by
  cases title <;> cases description <;> cases due_date <;> cases priority <;>
    simp [Todo.update]

/-- C4: `mark_completed`/`mark_incomplete` set `completed` to true/false
unconditionally, refresh `updated_at` to the clock reading each call —
two consecutive `mark_completed` calls advance it both times — and leave
every other field unchanged. -/
theorem C4_mark_semantics (t : Todo) (n1 n2 : Nat) (h1 : t.updated_at < n1)
    (h2 : n1 < n2) :
    (t.mark_completed n1).completed = true ∧
    (t.mark_incomplete n1).completed = false ∧
    (t.mark_completed n1).updated_at = n1 ∧
    (t.mark_incomplete n1).updated_at = n1 ∧
    t.updated_at < (t.mark_completed n1).updated_at ∧
    ((t.mark_completed n1).mark_completed n2).updated_at = n2 ∧
    (t.mark_completed n1).updated_at <
      ((t.mark_completed n1).mark_completed n2).updated_at ∧
    ((t.mark_completed n1).mark_completed n2).completed = true ∧
    (t.mark_completed n1).id = t.id ∧
    (t.mark_completed n1).title = t.title ∧
    (t.mark_completed n1).description = t.description ∧
    (t.mark_completed n1).due_date = t.due_date ∧
    (t.mark_completed n1).priority = t.priority ∧
    (t.mark_completed n1).created_at = t.created_at ∧
    (t.mark_incomplete n1).id = t.id ∧
    (t.mark_incomplete n1).title = t.title ∧
    (t.mark_incomplete n1).description = t.description ∧
    (t.mark_incomplete n1).due_date = t.due_date ∧
    (t.mark_incomplete n1).priority = t.priority ∧
    (t.mark_incomplete n1).created_at = t.created_at := by
  simp [Todo.mark_completed, Todo.mark_incomplete, h1, h2]

/-- Witness for C4: a concrete todo marked completed at clock 13 and
again at 15, both calls advancing `updated_at`. -/
theorem C4_witness :
    (⟨[7], [65], none, none, .low, false, 10, 12⟩ : Todo).updated_at < 13 ∧
    (13 : Nat) < 15 ∧
    (((⟨[7], [65], none, none, .low, false, 10, 12⟩ : Todo).mark_completed
        13).mark_completed 15).updated_at = 15 :=
  ⟨by decide, by decide,
    (C4_mark_semantics ⟨[7], [65], none, none, .low, false, 10, 12⟩ 13 15
      (by decide) (by decide)).2.2.2.2.2.1⟩

/-- C5: `delete` reports whether a record existed; afterwards `get` on
that id returns the not-found signal (`Ok(None)`), and a second `delete`
returns false rather than an error. -/
theorem C5_delete_idempotent (s : Sled) (id : Bytes) :
    (TodoDb.delete s id).1 = (treeGet id s.tree).isSome ∧
    TodoDb.get (TodoDb.delete s id).2 id = some none ∧
    (TodoDb.delete (TodoDb.delete s id).2 id).1 = false := by
  refine ⟨rfl, ?_, ?_⟩
  · unfold TodoDb.get TodoDb.delete
    simp only [Sled.flush, treeGet_treeRemove_self]
  · unfold TodoDb.delete
    simp only [Sled.flush, treeGet_treeRemove_self, Option.isSome_none]

theorem applyOps_inv (t : Todo) (ops : List TodoOp)
    (hinv : t.created_at ≤ t.updated_at)
    (h : ∀ op ∈ ops, t.created_at ≤ op.time) :
    (applyOps t ops).created_at ≤ (applyOps t ops).updated_at := by
  induction ops generalizing t with
  | nil => exact hinv
  | cons op rest ih =>
    unfold applyOps at ih ⊢
    rw [List.foldl_cons]
    apply ih (op.apply t)
    · rw [TodoOp.apply_created_at, TodoOp.apply_updated_at]
      exact h op (List.mem_cons_self op rest)
    · intro op' hop'
      rw [TodoOp.apply_created_at]
      exact h op' (List.mem_cons_of_mem op hop')

/-- C6: `created_at ≤ updated_at` holds for a fresh todo (both equal)
and after any sequence of domain mutations whose clock readings are not
earlier than the creation time; `created_at` itself never changes. -/
theorem C6_created_le_updated (title : List Nat)
    (description : Option (List Nat)) (due_date : Option Nat)
    (priority : Priority) (id : Bytes) (now : Nat) (ops : List TodoOp)
    (h : ∀ op ∈ ops, now ≤ op.time) :
    (Todo.new title description due_date priority id now).created_at =
      (Todo.new title description due_date priority id now).updated_at ∧
    (applyOps (Todo.new title description due_date priority id now)
      ops).created_at = now ∧
    (applyOps (Todo.new title description due_date priority id now)
        ops).created_at ≤
      (applyOps (Todo.new title description due_date priority id now)
        ops).updated_at := by
  exact ⟨rfl, applyOps_created_at _ _,
    applyOps_inv (Todo.new title description due_date priority id now) ops
      (le_refl now) h⟩

/-- Witness for C6: a todo created at clock 3, then marked completed at
5 and partially updated at 7, keeps `created_at ≤ updated_at`. -/
theorem C6_witness :
    (∀ op ∈ ([TodoOp.mark_completed 5,
        TodoOp.update (some [66]) none none none 7] : List TodoOp),
      3 ≤ op.time) ∧
    (applyOps (Todo.new [65] none none .low [9] 3)
        [TodoOp.mark_completed 5,
          TodoOp.update (some [66]) none none none 7]).created_at ≤
      (applyOps (Todo.new [65] none none .low [9] 3)
        [TodoOp.mark_completed 5,
          TodoOp.update (some [66]) none none none 7]).updated_at :=
  ⟨by decide,
    (C6_created_le_updated [65] none none .low [9] 3
      [TodoOp.mark_completed 5, TodoOp.update (some [66]) none none none 7]
      (by decide)).2.2⟩

/-- C7: the store's `update` is the identical operation to `insert`:
the same write of the record under its own identifier key, the same
flush, the same result on every state. -/
theorem C7_update_eq_insert (s : Sled) (t : Todo) :
    TodoDb.update s t = TodoDb.insert s t :=
  rfl

/-- C8: the delete handler returns 204 with an empty body when the
store reports the record existed and 404 with an `ErrorResponse`
carrying the descriptive message when it did not, while a database
error renders to 500 — not-found is never conflated with storage
failure. -/
theorem C8_delete_handler (s : Sled) (id : Bytes) (m : Bytes) :
    (if (treeGet id s.tree).isSome = true
      then renderDelete (delete_todo s id).1 = (204, none)
      else renderDelete (delete_todo s id).1 =
        (404, some (ErrorResponse.new (notFoundMsg id)))) ∧
    AppError.into_response (AppError.databaseError m) =
      (500, ErrorResponse.new m) ∧
    AppError.into_response (AppError.notFound m) =
      (404, ErrorResponse.new m) := by
  refine ⟨?_, rfl, rfl⟩
  by_cases h : (treeGet id s.tree).isSome = true
  · rw [if_pos h]
    unfold delete_todo TodoDb.delete renderDelete
    simp [h]
  · rw [if_neg h]
    unfold delete_todo TodoDb.delete renderDelete
    simp [h, AppError.into_response]

/-- C9: every mutating store operation flushes before returning: after
each one, the durable contents equal the in-memory tree, which holds
exactly the operation's write. -/
theorem C9_mutations_durable (s : Sled) (t : Todo) (id : Bytes) :
    (TodoDb.insert s t).durable = (TodoDb.insert s t).tree ∧
    (TodoDb.insert s t).durable = treeInsert t.id (encode_to_vec t) s.tree ∧
    (TodoDb.update s t).durable = (TodoDb.update s t).tree ∧
    (TodoDb.update s t).durable = treeInsert t.id (encode_to_vec t) s.tree ∧
    (TodoDb.delete s id).2.durable = (TodoDb.delete s id).2.tree ∧
    (TodoDb.delete s id).2.durable = treeRemove id s.tree ∧
    (TodoDb.clear_all s).durable = (TodoDb.clear_all s).tree ∧
    (TodoDb.clear_all s).durable = [] :=
  ⟨rfl, rfl, rfl, rfl, rfl, rfl, rfl, rfl⟩

/-- C10: in every store state reachable from the empty store through
the mutating operations, a successful `get(id)` returns a todo whose
`id` field is the requested identifier, because writes key each record
by its own identifier bytes. -/
theorem C10_get_id_coherent (s : Sled) (id : Bytes) (todo : Todo)
    (hs : Reachable s) (h : TodoDb.get s id = some (some todo)) :
    todo.id = id := by
  have hinv := reachable_treeInv s hs
  unfold TodoDb.get at h
  cases hv : treeGet id s.tree with
  | none =>
    rw [hv] at h
    simp at h
  | some bytes =>
    rw [hv] at h
    obtain ⟨t, htv, henc, hid⟩ := hinv (id, bytes) (treeGet_mem id bytes s.tree hv)
    simp only at henc hid
    have hdec := decode_encode t [] htv
    rw [List.append_nil] at hdec
    rw [henc] at h
    simp [hdec] at h
    subst h
    exact hid

/-- Witness for C10: a concrete reachable store (one valid todo
inserted into the empty store); `get` on its key returns a todo whose
`id` field is that key. -/
theorem C10_witness :
    TodoDb.get
      (TodoDb.insert Sled.empty
        ⟨List.replicate 16 3, [75], none, some 9, .high, true, 4, 6⟩)
      (List.replicate 16 3) =
      some (some ⟨List.replicate 16 3, [75], none, some 9, .high, true, 4, 6⟩) ∧
    (⟨List.replicate 16 3, [75], none, some 9, .high, true, 4,
      6⟩ : Todo).id = List.replicate 16 3 :=
  ⟨by decide,
    C10_get_id_coherent
      (TodoDb.insert Sled.empty
        ⟨List.replicate 16 3, [75], none, some 9, .high, true, 4, 6⟩)
      (List.replicate 16 3)
      ⟨List.replicate 16 3, [75], none, some 9, .high, true, 4, 6⟩
      (Reachable.insert Sled.empty _ Reachable.empty (by decide))
      (by decide)⟩
